import Mathlib

/-!
Shallow embedding of the survey-analysis pipeline of `llm_analyze.py`
(turn-to-QA reconstruction, prompt building, summary parsing, CSV emission)
together with theorems about its behaviour.

Strings are modelled as `List Char`; Python `str.strip`, truthiness-based
`or` chains, `difflib.SequenceMatcher.ratio`, `re.split(r"\n\s*\n", ...)`,
`str.splitlines` and the `csv` writer are given explicit executable models.
-/

namespace LLMAnalyze

/-- Strings are modelled as lists of characters. -/
abbrev Str := List Char

/-- Convert a Lean string literal to the `List Char` model. -/
def str (s : String) : Str := s.data

/-- Python's whitespace predicate (the character class stripped by `str.strip`
and matched by `\s`): ASCII whitespace, the C1 separators, and the Unicode
space characters. -/
def pyIsSpace (c : Char) : Bool :=
  c = ' ' || c = '\t' || c = '\n' || c = '\r' || c = '\x0b' || c = '\x0c' ||
  c.val = 0x1c || c.val = 0x1d || c.val = 0x1e || c.val = 0x1f ||
  c.val = 0x85 || c.val = 0xa0 || c.val = 0x1680 ||
  (0x2000 ≤ c.val && c.val ≤ 0x200a) ||
  c.val = 0x2028 || c.val = 0x2029 || c.val = 0x202f || c.val = 0x205f ||
  c.val = 0x3000

/-- Left part of Python `str.strip`. -/
def pyStripLeft (s : Str) : Str := s.dropWhile pyIsSpace

/-- Right part of Python `str.strip`. -/
def pyStripRight (s : Str) : Str := (s.reverse.dropWhile pyIsSpace).reverse

/-- Python `str.strip()`: remove leading and trailing whitespace. -/
def pyStrip (s : Str) : Str := pyStripRight (pyStripLeft s)

/-- Python `needle in hay` for strings: contiguous substring test. -/
def isSubstr (needle hay : Str) : Bool :=
  (List.range (hay.length + 1)).any (fun i => needle.isPrefixOf (hay.drop i))

/-- Python `x or y` where `x` is an optional string: `None` and the empty
string are falsy and fall through to `y`. -/
def orElseStr (x : Option Str) (y : Str) : Str :=
  match x with
  | none => y
  | some s => if s = [] then y else s

/-- Python truthiness of an optional string (`if pending_q:`). -/
def truthy (x : Option Str) : Bool :=
  match x with
  | none => false
  | some s => !s.isEmpty

/-- A conversation turn: `{who, text, text_raw?}`.  The `text` and `text_raw`
keys may be absent (`none`). -/
structure Turn where
  who : Str
  text : Option Str
  text_raw : Option Str
deriving DecidableEq, Repr

/-- A submodule spec `{name, questions}`.  `sub.get("name", "")` collapses a
missing name with the empty string, so a plain string field is faithful. -/
structure Submodule where
  name : Str
  questions : List Str
deriving DecidableEq, Repr

/-- The chatlog record `{main_module_name, submodules, turns}`; the code reads
`data.get("main_module_name") or ""`, which collapses a missing or null main
module name with the empty string. -/
structure ChatlogData where
  main_module_name : Str
  submodules : List Submodule
  turns : List Turn
deriving DecidableEq, Repr

/-- A reconstructed question/answer pair `{module, q, a}`. -/
structure QAPair where
  module : Str
  q : Str
  a : Str
deriving DecidableEq, Repr

/-- Model of `choose_answer_text`: `(turn.get("text_raw") or turn.get("text") or "").strip()`. -/
def choose_answer_text (turn : Turn) : Str :=
  pyStrip (orElseStr turn.text_raw (orElseStr turn.text []))

/-- The alternatives of `_ROBOT_IGNORE_PAT` (greeting/closing keywords). -/
def robotIgnoreKeywords : List Str :=
  [str "สวัสดี", str "ขอรบกวน", str "ขออนุญาต", str "ขออนุญาติ",
   str "ขอบคุณ", str "เริ่ม", str "สิ้นสุด", str "จบเซสชัน"]

/-- Model of `_ROBOT_IGNORE_PAT.search(t)`: the pattern is an alternation of literal
keywords, so a match is a substring occurrence of any of them.
(`re.IGNORECASE` is vacuous on these caseless Thai literals.) -/
def robotIgnoreMatch (t : Str) : Bool :=
  robotIgnoreKeywords.any (fun k => isSubstr k t)

/-- Model of `looks_like_question`. -/
def looks_like_question (text : Str) : Bool :=
  let t := pyStrip text
  if t = [] || robotIgnoreMatch t then false
  else
    (str "?").isSuffixOf t ||
    isSubstr (str "หรือไม่") t ||
    isSubstr (str "ไหม") t ||
    isSubstr (str "อะไร") t ||
    isSubstr (str "อย่างไร") t ||
    isSubstr (str "เพิ่มเติม") t ||
    (str "วันนี้ท่านมาใช้บริการอะไร").isPrefixOf t ||
    (str "ท่าน").isPrefixOf t

/-- Length of the common prefix of two character lists (the length of the
matching block starting at a given pair of positions). -/
def commonRunLen : Str → Str → Nat
  | a :: as, b :: bs => if a = b then commonRunLen as bs + 1 else 0
  | _, _ => 0

/-- Model of `difflib.SequenceMatcher.find_longest_match` on the whole strings, in the
junk-free case (the strings here are far below the autojunk threshold of 200
characters): the longest matching block, ties broken by the smallest start in
`a`, then the smallest start in `b`; `(0, 0, 0)` when there is no match. -/
def bestMatch (a b : Str) : Nat × Nat × Nat :=
  (List.range a.length).foldl (fun best i =>
    (List.range b.length).foldl (fun best j =>
      let k := commonRunLen (a.drop i) (b.drop j)
      if k > best.2.2 then (i, j, k) else best) best) (0, 0, 0)

theorem commonRunLen_le_left : ∀ a b : Str, commonRunLen a b ≤ a.length := by
  intro a
  induction a with
  | nil => intro b; cases b <;> simp [commonRunLen]
  | cons x xs ih =>
    intro b
    cases b with
    | nil => simp [commonRunLen]
    | cons y ys =>
      simp only [commonRunLen, List.length_cons]
      split
      · exact Nat.add_le_add_right (ih ys) 1
      · exact Nat.zero_le _

theorem commonRunLen_le_right : ∀ a b : Str, commonRunLen a b ≤ b.length := by
  intro a
  induction a with
  | nil => intro b; cases b <;> simp [commonRunLen]
  | cons x xs ih =>
    intro b
    cases b with
    | nil => simp [commonRunLen]
    | cons y ys =>
      simp only [commonRunLen, List.length_cons]
      split
      · exact Nat.add_le_add_right (ih ys) 1
      · exact Nat.zero_le _

/-- A fold preserves any invariant preserved by each step. -/
theorem foldlPreserve {α β : Type} (P : β → Prop) (f : β → α → β) :
    ∀ (l : List α) (init : β), P init → (∀ s x, P s → x ∈ l → P (f s x)) →
      P (l.foldl f init) := by
  intro l
  induction l with
  | nil => intro init h0 _; exact h0
  | cons x xs ih =>
    intro init h0 hs
    exact ih (f init x) (hs init x h0 (List.mem_cons_self _ _))
      (fun s y hy hmem => hs s y hy (List.mem_cons_of_mem _ hmem))

theorem bestMatch_bounds (a b : Str) :
    (bestMatch a b).1 + (bestMatch a b).2.2 ≤ a.length ∧
    (bestMatch a b).2.1 + (bestMatch a b).2.2 ≤ b.length := by
  unfold bestMatch
  apply foldlPreserve
    (fun x : Nat × Nat × Nat => x.1 + x.2.2 ≤ a.length ∧ x.2.1 + x.2.2 ≤ b.length)
  · exact ⟨Nat.zero_le _, Nat.zero_le _⟩
  · intro s i hs hi
    apply foldlPreserve
      (fun x : Nat × Nat × Nat => x.1 + x.2.2 ≤ a.length ∧ x.2.1 + x.2.2 ≤ b.length)
    · exact hs
    · intro s' j hs' hj
      dsimp only
      split
      · refine ⟨?_, ?_⟩
        · show i + commonRunLen (a.drop i) (b.drop j) ≤ a.length
          have hk : commonRunLen (a.drop i) (b.drop j) ≤ a.length - i := by
            have := commonRunLen_le_left (a.drop i) (b.drop j)
            simpa [List.length_drop] using this
          have hi' : i < a.length := List.mem_range.mp hi
          omega
        · show j + commonRunLen (a.drop i) (b.drop j) ≤ b.length
          have hk : commonRunLen (a.drop i) (b.drop j) ≤ b.length - j := by
            have := commonRunLen_le_right (a.drop i) (b.drop j)
            simpa [List.length_drop] using this
          have hj' : j < b.length := List.mem_range.mp hj
          omega
      · exact hs'

/-- Total number of matched characters of `SequenceMatcher.get_matching_blocks`
(the sum of the block sizes): the longest matching block plus, recursively,
the totals of the regions left and right of it. -/
def matchTotal (a b : Str) : Nat :=
  if _h : (bestMatch a b).2.2 = 0 then 0
  else
    (bestMatch a b).2.2
      + matchTotal (a.take (bestMatch a b).1) (b.take (bestMatch a b).2.1)
      + matchTotal (a.drop ((bestMatch a b).1 + (bestMatch a b).2.2))
                   (b.drop ((bestMatch a b).2.1 + (bestMatch a b).2.2))
termination_by a.length + b.length
decreasing_by
  · have hb := bestMatch_bounds a b
    simp only [List.length_take, List.length_drop]
    omega
  · have hb := bestMatch_bounds a b
    simp only [List.length_take, List.length_drop]
    omega

/-- The value `SequenceMatcher(a=question, b=q).ratio()` as an exact rational:
`2 * M / (len(a) + len(b))`, or `1.0` when both strings are empty.  For the
string lengths arising here the exact rational comparisons agree with the
float comparisons performed by the source (distinct candidate ratios differ
by far more than the float rounding error). -/
def ratioQ (a b : Str) : ℚ :=
  if a.length + b.length = 0 then 1
  else mkRat (2 * (matchTotal a b : Int)) (a.length + b.length)

/-- Model of `best_submodule_for`: fold over all submodule questions, keeping the first
name achieving the strictly greatest ratio; return it only when the best
ratio reaches the `0.45` threshold. -/
def best_submodule_for (question : Str) (submodules : List Submodule) : Option Str :=
  let best := submodules.foldl (fun best sub =>
    sub.questions.foldl (fun best q =>
      let r := ratioQ question q
      if r > best.2 then (some sub.name, r) else best) best) (none, (0 : ℚ))
  if best.2 ≥ mkRat 45 100 then best.1 else none

/-- One iteration of the turn loop of `chatlog_turns_to_qa_list`.  The state
is `(qa_list, pending_q, pending_module)`. -/
def qaStep (main_module : Str) (submodules : List Submodule)
    (st : List QAPair × Option Str × Option Str) (t : Turn) :
    List QAPair × Option Str × Option Str :=
  if t.who = str "robot" then
    let q_text := pyStrip (orElseStr t.text [])
    if looks_like_question q_text then
      -- pending_module = guessed or main_module or ""
      -- (`main_module or ""` is the identity once the field is a string)
      (st.1, some q_text,
        some (orElseStr (best_submodule_for q_text submodules) main_module))
    else st
  else if t.who = str "patient" then
    if truthy st.2.1 then
      (st.1 ++ [⟨orElseStr st.2.2 main_module, (st.2.1).getD [],
                 choose_answer_text t⟩], none, none)
    else st
  else st

/-- Model of `chatlog_turns_to_qa_list`: fold the turns through `qaStep`, then replace
any empty module with the sentinel. -/
def chatlog_turns_to_qa_list (data : ChatlogData) : List QAPair :=
  let final := data.turns.foldl
    (qaStep data.main_module_name data.submodules) ([], none, none)
  final.1.map (fun qa =>
    if qa.module = [] then { qa with module := str "ทั่วไป" } else qa)

/-- One section of the prompt: `f"{module}\nQ: {q}\nA: {a}"` before stripping. -/
def promptSection (qa : QAPair) : Str :=
  qa.module ++ str "\nQ: " ++ qa.q ++ str "\nA: " ++ qa.a

/-- Model of `build_prompt_text`: the stripped sections joined by `"\n"`. -/
def build_prompt_text (conversation_log : List QAPair) : Str :=
  List.intercalate (str "\n")
    (conversation_log.map (fun qa => pyStrip (promptSection qa)))

/-- Model of `summarize_and_score` with the chat-completion call abstracted as an
oracle from the prompt to the (optional) message content:
`(resp.choices[0].message.content or "").strip()`. -/
def summarize_and_score (model : Str → Option Str) (conversation_text : Str) : Str :=
  pyStrip (orElseStr (model conversation_text) [])

/-- Scanner for `re.split(r"\n\s*\n", s)`, as a one-character-at-a-time state
machine.  A separator match starts at a `'\n'` and, by greedy matching of
`\s*` followed by a final `'\n'`, extends to the last `'\n'` of the maximal
whitespace run that follows; the run's remainder after that newline starts
the next piece.  `acc` is the current piece, reversed.  `cand` is `none`
outside a candidate separator, and `some (pending, sepFound, tl)` inside a
whitespace run that began at a `'\n'`: `pending` holds the whole run so far
(reversed, kept in case no separator completes), `sepFound` records whether a
second `'\n'` has been seen (so a separator can end here), and `tl` holds the
run's chars after its last `'\n'` (reversed). -/
def splitBlankAux : Str → Option (Str × Bool × Str) → Str → List Str
  | acc, none, [] => [acc.reverse]
  | acc, some (pending, sepFound, tl), [] =>
    if sepFound then [acc.reverse, tl.reverse] else [(pending ++ acc).reverse]
  | acc, none, c :: rest =>
    if c = '\n' then splitBlankAux acc (some ([c], false, [])) rest
    else splitBlankAux (c :: acc) none rest
  | acc, some (pending, sepFound, tl), c :: rest =>
    if c = '\n' then splitBlankAux acc (some (c :: pending, true, [])) rest
    else if pyIsSpace c then
      splitBlankAux acc (some (c :: pending, sepFound, c :: tl)) rest
    else if sepFound then acc.reverse :: splitBlankAux (c :: tl) none rest
    else splitBlankAux (c :: (pending ++ acc)) none rest

/-- Model of `re.split(r"\n\s*\n", s)`. -/
def splitBlankSep (s : Str) : List Str := splitBlankAux [] none s

/-- The blocks of the model response:
`re.split(r"\n\s*\n", result_text.strip()) if result_text.strip() else []`. -/
def blocksOf (result_text : Str) : List Str :=
  if pyStrip result_text = [] then [] else splitBlankSep (pyStrip result_text)

/-- The line-boundary characters of Python `str.splitlines`. -/
def isLineBreak (c : Char) : Bool :=
  c = '\n' || c = '\r' || c = '\x0b' || c = '\x0c' ||
  c.val = 0x1c || c.val = 0x1d || c.val = 0x1e || c.val = 0x85 ||
  c.val = 0x2028 || c.val = 0x2029

/-- Worker for `str.splitlines`: `acc` is the current line, reversed; a
trailing boundary does not open an extra empty line; `"\r\n"` is a single
line boundary. -/
def pySplitlinesAux : Str → Str → List Str
  | acc, [] => if acc = [] then [] else [acc.reverse]
  | acc, '\r' :: '\n' :: r2 => acc.reverse :: pySplitlinesAux [] r2
  | acc, c :: rest =>
    if isLineBreak c then acc.reverse :: pySplitlinesAux [] rest
    else pySplitlinesAux (c :: acc) rest

/-- Python `str.splitlines()`. -/
def pySplitlines (s : Str) : List Str := pySplitlinesAux [] s

/-- The lines of a block: `[ln.strip() for ln in block.splitlines() if ln.strip()]`. -/
def linesOf (block : Str) : List Str :=
  ((pySplitlines block).map pyStrip).filter (fun ln => ln ≠ [])

/-- Summary extraction: first line containing a colon; everything after the
first colon, stripped (`ln.split(":", 1)[1].strip()`). -/
def scanSummary : List Str → Str
  | [] => []
  | ln :: rest =>
    if ':' ∈ ln then pyStrip ((ln.dropWhile (fun c => c ≠ ':')).drop 1)
    else scanSummary rest

/-- The character class of `\d` in Python `re` (Unicode decimal digits;
listed here are the ranges that can arise in this pipeline's text). -/
def pyIsDigit (c : Char) : Bool :=
  ('0' ≤ c && c ≤ '9') ||
  (0x660 ≤ c.val && c.val ≤ 0x669) || (0x6f0 ≤ c.val && c.val ≤ 0x6f9) ||
  (0x966 ≤ c.val && c.val ≤ 0x96f) || (0xe50 ≤ c.val && c.val ≤ 0xe59) ||
  (0xff10 ≤ c.val && c.val ≤ 0xff19)

/-- Model of `re.search(r"(\d+)", ln)`: the first maximal run of digits, or `[]`. -/
def firstDigitRun : Str → Str
  | [] => []
  | c :: rest =>
    if pyIsDigit c then c :: rest.takeWhile pyIsDigit else firstDigitRun rest

/-- Score extraction: scan the lines; on a line containing the label
`"คะแนน"`, search for a digit run — the loop `break`s only when a digit run
is found, otherwise it keeps scanning later lines. -/
def scanScore : List Str → Str
  | [] => []
  | ln :: rest =>
    if isSubstr (str "คะแนน") ln then
      match firstDigitRun ln with
      | [] => scanScore rest
      | ds => ds
    else scanScore rest

/-- One output row `{module, questions, answers, summary, score}`. -/
structure ResultRow where
  module : Str
  questions : Str
  answers : Str
  summary : Str
  score : Str
deriving DecidableEq, Repr

/-- The body of the `parse_for_csv` loop for one `(block, qa)` pair. -/
def rowFor (block : Str) (qa : QAPair) : ResultRow :=
  { module := qa.module, questions := qa.q, answers := qa.a,
    summary := scanSummary (linesOf block), score := scanScore (linesOf block) }

/-- The enumerated loop of `parse_for_csv`:
`block = blocks[i] if i < len(blocks) else ""`. -/
def parseRowsFrom (blocks : List Str) : Nat → List QAPair → List ResultRow
  | _, [] => []
  | i, qa :: rest => rowFor (blocks.getD i []) qa :: parseRowsFrom blocks (i + 1) rest

/-- Model of `parse_for_csv`. -/
def parse_for_csv (result_text : Str) (conversation_log : List QAPair) :
    List ResultRow :=
  parseRowsFrom (blocksOf result_text) 0 conversation_log

/-- The fixed CSV column order. -/
def fieldnames : List Str :=
  [str "module", str "questions", str "answers", str "summary", str "score"]

/-- QUOTE_MINIMAL: a field is quoted when it contains the delimiter, the
quote character, or a line-terminator character. -/
def csvQuoteNeeded (f : Str) : Bool :=
  f.any (fun c => c = ',' || c = '"' || c = '\r' || c = '\n')

/-- Serialize one CSV field (doubling embedded quotes when quoting). -/
def csvField (f : Str) : Str :=
  if csvQuoteNeeded f then
    '"' :: f.foldr (fun c acc => if c = '"' then '"' :: '"' :: acc else c :: acc) ['"']
  else f

/-- Serialize one CSV record: fields joined by `','`, `"\r\n"` terminator. -/
def csvLine (fs : List Str) : Str :=
  List.intercalate (str ",") (fs.map csvField) ++ str "\r\n"

/-- Model of `writer.writerow` for a `ResultRow`, in the `fieldnames` order. -/
def csvRowOf (r : ResultRow) : Str :=
  csvLine [r.module, r.questions, r.answers, r.summary, r.score]

/-- Model of `writer.writerows`. -/
def csvRowsOf (rows : List ResultRow) : Str := (rows.map csvRowOf).flatten

/-- Model of `append_rows_to_csv`, with the file system state for the target path
modelled as `Option Str` (`none` = the file does not exist).  The header is
written only when the file did not exist; everything is appended. -/
def append_rows_to_csv (rows : List ResultRow) (csvFile : Option Str) : Option Str :=
  let write_header := csvFile.isNone
  some ((csvFile.getD []) ++
    (if write_header then csvLine fieldnames else []) ++ csvRowsOf rows)

/-- A generic fallback record: a JSON dict with (possibly missing, here
collapsed-with-empty by `r.get(..., '')` / truthiness) `module`, `q`, `a`. -/
structure GenericRec where
  module : Str
  q : Str
  a : Str
deriving DecidableEq, Repr

/-- An element of a generic JSON list: a dict or some non-dict value. -/
inductive GenericVal where
  | dict (r : GenericRec)
  | nondict
deriving DecidableEq, Repr

/-- The parsed input JSON: a dict with `"turns"` (the chatlog schema), a dict
without `"turns"`, a list, or a scalar. -/
inductive InputJson where
  | chatlog (d : ChatlogData)
  | dictNoTurns (r : GenericRec)
  | jsonList (vs : List GenericVal)
  | scalar
deriving DecidableEq, Repr

/-- The filter `[r for r in conv if isinstance(r, dict) and (r.get("q") or r.get("a"))]`. -/
def genericFilter (vs : List GenericVal) : List QAPair :=
  vs.filterMap (fun v =>
    match v with
    | .dict r => if r.q ≠ [] ∨ r.a ≠ [] then some ⟨r.module, r.q, r.a⟩ else none
    | .nondict => none)

/-- The QA list extracted by `run` from the loaded JSON. -/
def convOf (data : InputJson) : List QAPair :=
  match data with
  | .chatlog d => chatlog_turns_to_qa_list d
  | .dictNoTurns r => genericFilter [.dict r]
  | .jsonList vs => genericFilter vs
  | .scalar => genericFilter [.nondict]

/-- Model of `run`: the main flow.  `input` is the loaded JSON (`none` = the input
path does not exist), `model` the chat-completion oracle, `out_csv` the file
system state of the output table.  The result is the new state of the output
table together with the outcome (`SystemExit` messages become `.error`).
An error is raised before any append, so the table part of the result is the
unchanged input state on the error paths. -/
def run (input_path : Str) (input : Option InputJson) (model : Str → Option Str)
    (out_csv : Option Str) : Option Str × Except Str Unit :=
  match input with
  | none => (out_csv, .error (str "Input JSON not found: " ++ input_path))
  | some data =>
    let conv := convOf data
    if conv = [] then (out_csv, .error (str "No Q/A pairs found in the input JSON."))
    else
      let prompt_text := build_prompt_text conv
      let result := summarize_and_score model prompt_text
      let rows := parse_for_csv result conv
      (append_rows_to_csv rows out_csv, .ok ())

/-! ### String lemmas -/

theorem dropWhile_eq_self_of_head (p : Char → Bool) (l : Str)
    (h : l.head?.all (fun c => !p c) = true) : l.dropWhile p = l := by
  cases l with
  | nil => rfl
  | cons a as =>
    simp only [List.head?_cons, Option.all_some, Bool.not_eq_true'] at h
    simp [List.dropWhile, h]

theorem head_all_of_dropWhile (p : Char → Bool) :
    ∀ l : Str, ((l.dropWhile p).head?.all (fun c => !p c)) = true := by
  intro l
  induction l with
  | nil => rfl
  | cons a as ih =>
    by_cases h : p a = true
    · simpa [List.dropWhile, h] using ih
    · simp [List.dropWhile, h]

theorem pyStripLeft_eq_self (l : Str)
    (h : l.head?.all (fun c => !pyIsSpace c) = true) : pyStripLeft l = l :=
  dropWhile_eq_self_of_head pyIsSpace l h

theorem pyStripRight_eq_self (l : Str)
    (h : l.getLast?.all (fun c => !pyIsSpace c) = true) : pyStripRight l = l := by
  unfold pyStripRight
  rw [dropWhile_eq_self_of_head pyIsSpace l.reverse (by simpa using h),
    List.reverse_reverse]

theorem pyStrip_eq_self (l : Str)
    (h1 : l.head?.all (fun c => !pyIsSpace c) = true)
    (h2 : l.getLast?.all (fun c => !pyIsSpace c) = true) : pyStrip l = l := by
  unfold pyStrip
  rw [pyStripLeft_eq_self l h1, pyStripRight_eq_self l h2]

theorem prefix_head_all (q : Char → Bool) (y x : Str) (hp : y <+: x)
    (h : x.head?.all q = true) : y.head?.all q = true := by
  obtain ⟨t, rfl⟩ := hp
  cases y with
  | nil => rfl
  | cons a as => simpa using h

theorem reverse_of_suffix (u v : Str) (h : u <:+ v) : u.reverse <+: v.reverse := by
  obtain ⟨t, rfl⟩ := h
  exact ⟨t.reverse, by rw [← List.reverse_append]⟩

theorem pyStripRight_initial (l : Str) : pyStripRight l <+: l := by
  have hs : l.reverse.dropWhile pyIsSpace <:+ l.reverse := List.dropWhile_suffix _
  have hp := reverse_of_suffix _ _ hs
  rw [List.reverse_reverse] at hp
  exact hp

theorem pyStrip_head_all (s : Str) :
    (pyStrip s).head?.all (fun c => !pyIsSpace c) = true := by
  unfold pyStrip
  exact prefix_head_all _ _ _ (pyStripRight_initial (pyStripLeft s))
    (head_all_of_dropWhile pyIsSpace s)

theorem pyStrip_getLast_all (s : Str) :
    (pyStrip s).getLast?.all (fun c => !pyIsSpace c) = true := by
  unfold pyStrip pyStripRight
  rw [← List.head?_reverse, List.reverse_reverse]
  exact head_all_of_dropWhile pyIsSpace (pyStripLeft s).reverse

/-- Python `str.strip` is idempotent. -/
theorem pyStrip_idem (s : Str) : pyStrip (pyStrip s) = pyStrip s :=
  pyStrip_eq_self _ (pyStrip_head_all s) (pyStrip_getLast_all s)

theorem pyStrip_nil : pyStrip [] = [] := rfl

/-- A string classified as a question is nonempty. -/
theorem looks_ne_nil (x : Str) (h : looks_like_question x = true) : x ≠ [] := by
  intro hx
  subst hx
  exact absurd h (by decide)

theorem orElseStr_some_self (s y : Str) (h : s ≠ []) : orElseStr (some s) y = s := by
  simp [orElseStr, h]

theorem orElseStr_none (y : Str) : orElseStr none y = y := rfl

/-- Collapsing the nested `or`: `((g or m) or m) = (g or m)` for strings. -/
theorem orElseStr_collapse (g : Option Str) (m : Str) :
    orElseStr (some (orElseStr g m)) m = orElseStr g m := by
  cases g with
  | none =>
    by_cases hm : m = [] <;> simp [orElseStr, hm]
  | some s =>
    by_cases hs : s = [] <;> by_cases hm : m = [] <;> simp [orElseStr, hs, hm]

theorem truthy_some (s : Str) (h : s ≠ []) : truthy (some s) = true := by
  simp [truthy, List.isEmpty_iff, h]

/-! ### C10 -/

/-- C10: the answer text of a `QAPair` is chosen by non-emptiness, not mere
presence: a missing or empty `text_raw` falls back to the `text` field; if
both are missing or empty the answer is the empty string; and the chosen
text is always whitespace-stripped. -/
theorem choose_answer_selects_nonempty (t : Turn) :
    ((t.text_raw = none ∨ t.text_raw = some []) →
        choose_answer_text t = pyStrip (orElseStr t.text [])) ∧
    (∀ s, t.text_raw = some s → s ≠ [] → choose_answer_text t = pyStrip s) ∧
    ((t.text_raw = none ∨ t.text_raw = some []) →
        (t.text = none ∨ t.text = some []) → choose_answer_text t = []) ∧
    pyStrip (choose_answer_text t) = choose_answer_text t := by
  refine ⟨?_, ?_, ?_, pyStrip_idem _⟩
  · rintro (h | h) <;> simp [choose_answer_text, h, orElseStr]
  · intro s hs hne
    simp [choose_answer_text, hs, orElseStr_some_self s _ hne]
  · rintro (h | h) (h' | h') <;>
      simp [choose_answer_text, h, h', orElseStr, pyStrip_nil]

/-- C10 witness: a turn whose `text_raw` is present but empty falls back to
the stripped `text` field. -/
theorem choose_answer_selects_nonempty_witness :
    choose_answer_text ⟨str "patient", some (str " ตรวจสุขภาพ "), some []⟩
      = str "ตรวจสุขภาพ" := by
  have h := (choose_answer_selects_nonempty
    ⟨str "patient", some (str " ตรวจสุขภาพ "), some []⟩).1 (Or.inr rfl)
  rw [h]
  decide

/-! ### C2 -/

/-- C2: every `QAPair` produced by the reconstructor has a nonempty module:
unresolved pairs carry the sentinel `"ทั่วไป"`, never the empty string. -/
theorem module_never_empty (data : ChatlogData) (qa : QAPair)
    (h : qa ∈ chatlog_turns_to_qa_list data) : qa.module ≠ [] := by
  unfold chatlog_turns_to_qa_list at h
  obtain ⟨qa0, _, rfl⟩ := List.mem_map.mp h
  by_cases h0 : qa0.module = []
  · simp only [if_pos h0]
    decide
  · simp only [if_neg h0]
    exact h0

/-- C2 witness: the pair reconstructed from an unattributable question in a
record with an empty main module name has the sentinel, nonempty, module. -/
theorem module_never_empty_witness :
    (QAPair.mk (str "ทั่วไป") (str "ท่านพอใจไหม") (str "โอเค")).module ≠ [] :=
  module_never_empty
    { main_module_name := [], submodules := [],
      turns := [⟨str "robot", some (str "ท่านพอใจไหม"), none⟩,
                ⟨str "patient", some (str "โอเค"), none⟩] }
    _ (by decide)

/-! ### C1 -/

/-- Invariant of the turn fold: every emitted pair whose question has no
submodule match carries the main module name, and the pending module is
always determined by the pending question. -/
def C1Inv (main : Str) (subs : List Submodule)
    (st : List QAPair × Option Str × Option Str) : Prop :=
  (∀ qa ∈ st.1, best_submodule_for qa.q subs = none → qa.module = main) ∧
  (∀ q, st.2.1 = some q →
    st.2.2 = some (orElseStr (best_submodule_for q subs) main))

theorem qaStep_preserves_C1Inv (main : Str) (subs : List Submodule)
    (st : List QAPair × Option Str × Option Str) (t : Turn)
    (h : C1Inv main subs st) : C1Inv main subs (qaStep main subs st t) := by
  obtain ⟨h1, h2⟩ := h
  unfold qaStep
  by_cases hr : t.who = str "robot"
  · simp only [if_pos hr]
    by_cases hq : looks_like_question (pyStrip (orElseStr t.text [])) = true
    · simp only [if_pos hq]
      refine ⟨h1, ?_⟩
      intro q hq'
      injection hq' with hq''
      subst hq''
      rfl
    · simp only [if_neg hq]
      exact ⟨h1, h2⟩
  · simp only [if_neg hr]
    by_cases hp : t.who = str "patient"
    · simp only [if_pos hp]
      by_cases ht : truthy st.2.1 = true
      · simp only [if_pos ht]
        refine ⟨?_, ?_⟩
        · intro qa hqa hnone
          rcases List.mem_append.mp hqa with hmem | hmem
          · exact h1 qa hmem hnone
          · cases st with
            | mk acc pend =>
              cases pend with
              | mk pq pm =>
                cases pq with
                | none => exact absurd ht (by simp [truthy])
                | some q =>
                  have hpm := h2 q rfl
                  simp only [List.mem_singleton] at hmem
                  subst hmem
                  simp only [Option.getD_some] at hnone ⊢
                  simp only at hpm
                  rw [hpm, orElseStr_collapse, hnone, orElseStr_none]
        · intro q hq'
          cases hq'
      · simp only [if_neg ht]
        exact ⟨h1, h2⟩
    · simp only [if_neg hp]
      exact ⟨h1, h2⟩

/-- C1, amended: a question whose best fuzzy-match ratio is below the `0.45`
threshold (no submodule attribution) falls back to `main_module_name`; the
resulting pair carries the sentinel `"ทั่วไป"` only when `main_module_name`
is itself empty. -/
theorem below_threshold_falls_back_to_main (data : ChatlogData) (qa : QAPair)
    (hmem : qa ∈ chatlog_turns_to_qa_list data)
    (hnone : best_submodule_for qa.q data.submodules = none) :
    qa.module = if data.main_module_name = [] then str "ทั่วไป"
                else data.main_module_name := by
  have hinv : C1Inv data.main_module_name data.submodules
      (data.turns.foldl (qaStep data.main_module_name data.submodules)
        ([], none, none)) := by
    apply foldlPreserve
    · exact ⟨fun qa h => absurd h (List.not_mem_nil qa), fun q h => by cases h⟩
    · exact fun s x hs _ => qaStep_preserves_C1Inv _ _ s x hs
  unfold chatlog_turns_to_qa_list at hmem
  obtain ⟨qa0, hqa0, rfl⟩ := List.mem_map.mp hmem
  have hq : (if qa0.module = [] then { qa0 with module := str "ทั่วไป" }
      else qa0).q = qa0.q := by
    split <;> rfl
  rw [hq] at hnone
  have h0 : qa0.module = data.main_module_name := hinv.1 qa0 hqa0 hnone
  by_cases hm : data.main_module_name = []
  · rw [if_pos hm]
    rw [hm] at h0
    simp [h0]
  · rw [if_neg hm]
    have hm' : ¬qa0.module = [] := by rw [h0]; exact hm
    rw [if_neg hm']
    exact h0

/-- C1 counterexample: with a nonempty `main_module_name` and no submodule
questions (so the best fuzzy-match ratio `0.0` is below the `0.45`
threshold), the reconstructed pair's module is the main module name, not the
sentinel `"ทั่วไป"` the claim requires. -/
theorem below_threshold_not_sentinel :
    best_submodule_for (str "ท่านพอใจไหม") [] = none ∧
    chatlog_turns_to_qa_list
      { main_module_name := str "แผนกผู้ป่วยนอก", submodules := [],
        turns := [⟨str "robot", some (str "ท่านพอใจไหม"), none⟩,
                  ⟨str "patient", some (str "พอใจมาก"), none⟩] }
      = [⟨str "แผนกผู้ป่วยนอก", str "ท่านพอใจไหม", str "พอใจมาก"⟩] ∧
    str "แผนกผู้ป่วยนอก" ≠ str "ทั่วไป" := by
  refine ⟨by decide, by decide, by decide⟩

/-- C1 witness: the amended fallback applied to the concrete record above. -/
theorem below_threshold_falls_back_to_main_witness :
    (QAPair.mk (str "แผนกผู้ป่วยนอก") (str "ท่านพอใจไหม") (str "พอใจมาก")).module
      = if (str "แผนกผู้ป่วยนอก") = [] then str "ทั่วไป"
        else str "แผนกผู้ป่วยนอก" :=
  below_threshold_falls_back_to_main
    { main_module_name := str "แผนกผู้ป่วยนอก", submodules := [],
      turns := [⟨str "robot", some (str "ท่านพอใจไหม"), none⟩,
                ⟨str "patient", some (str "พอใจมาก"), none⟩] }
    _ (by decide) (by decide)

/-! ### C6 -/

/-- C6: from any reconstruction state, a robot question followed by a second
robot question and then a patient turn emits exactly one `QAPair`, pairing
the second question with the patient answer; the first question is silently
dropped. -/
theorem second_question_wins (main : Str) (subs : List Submodule)
    (acc : List QAPair) (pq pm : Option Str) (t1 t2 t3 : Turn)
    (h1 : t1.who = str "robot")
    (hq1 : looks_like_question (pyStrip (orElseStr t1.text [])) = true)
    (h2 : t2.who = str "robot")
    (hq2 : looks_like_question (pyStrip (orElseStr t2.text [])) = true)
    (h3 : t3.who = str "patient") :
    List.foldl (qaStep main subs) (acc, pq, pm) [t1, t2, t3]
      = (acc ++
          [⟨orElseStr (best_submodule_for (pyStrip (orElseStr t2.text [])) subs) main,
            pyStrip (orElseStr t2.text []), choose_answer_text t3⟩],
         none, none) := by
  have s1 : qaStep main subs (acc, pq, pm) t1
      = (acc, some (pyStrip (orElseStr t1.text [])),
         some (orElseStr
           (best_submodule_for (pyStrip (orElseStr t1.text [])) subs) main)) := by
    unfold qaStep
    rw [h1, if_pos rfl, if_pos hq1]
  have s2 : qaStep main subs
      (acc, some (pyStrip (orElseStr t1.text [])),
       some (orElseStr
         (best_submodule_for (pyStrip (orElseStr t1.text [])) subs) main)) t2
      = (acc, some (pyStrip (orElseStr t2.text [])),
         some (orElseStr
           (best_submodule_for (pyStrip (orElseStr t2.text [])) subs) main)) := by
    unfold qaStep
    rw [h2, if_pos rfl, if_pos hq2]
  have ht : truthy (some (pyStrip (orElseStr t2.text []))) = true :=
    truthy_some _ (looks_ne_nil _ hq2)
  have s3 : qaStep main subs
      (acc, some (pyStrip (orElseStr t2.text [])),
       some (orElseStr
         (best_submodule_for (pyStrip (orElseStr t2.text [])) subs) main)) t3
      = (acc ++
          [⟨orElseStr (best_submodule_for (pyStrip (orElseStr t2.text [])) subs) main,
            pyStrip (orElseStr t2.text []), choose_answer_text t3⟩],
         none, none) := by
    unfold qaStep
    rw [h3, if_neg (by decide : ¬(str "patient" = str "robot")), if_pos rfl]
    dsimp only
    rw [if_pos ht, orElseStr_collapse]
    rfl
  simp only [List.foldl]
  rw [s1, s2, s3]

/-- C6 witness: the three-turn span evaluated on concrete turns. -/
theorem second_question_wins_witness :
    List.foldl (qaStep (str "หลัก") []) ([], none, none)
      [⟨str "robot", some (str "ท่านสะดวกไหม"), none⟩,
       ⟨str "robot", some (str "ท่านพอใจหรือไม่"), none⟩,
       ⟨str "patient", some (str "พอใจ"), none⟩]
      = ([⟨str "หลัก", str "ท่านพอใจหรือไม่", str "พอใจ"⟩], none, none) := by
  have h := second_question_wins (str "หลัก") [] [] none none
    ⟨str "robot", some (str "ท่านสะดวกไหม"), none⟩
    ⟨str "robot", some (str "ท่านพอใจหรือไม่"), none⟩
    ⟨str "patient", some (str "พอใจ"), none⟩
    rfl (by decide) rfl (by decide) rfl
  rw [h]
  decide

/-! ### C7 -/

/-- A turn the robot branch of the loop treats as a question. -/
def isQTurn (t : Turn) : Bool :=
  (t.who == str "robot") && looks_like_question (pyStrip (orElseStr t.text []))

/-- Every robot turn classified as a question is immediately followed by a
patient turn. -/
def qFollowed : List Turn → Bool
  | [] => true
  | [t] => !isQTurn t
  | t :: u :: rest =>
    if isQTurn t then (u.who == str "patient") && qFollowed (u :: rest)
    else qFollowed (u :: rest)

/-- The pairs the fold emits on a `qFollowed` turn sequence: one per question
turn, paired with the immediately following patient turn. -/
def pairsOf (main : Str) (subs : List Submodule) : List Turn → List QAPair
  | [] => []
  | [_] => []
  | t :: u :: rest2 =>
    if isQTurn t then
      ⟨orElseStr (best_submodule_for (pyStrip (orElseStr t.text [])) subs) main,
       pyStrip (orElseStr t.text []),
       choose_answer_text u⟩ :: pairsOf main subs rest2
    else pairsOf main subs (u :: rest2)

theorem qFollowed_cons_skip (t : Turn) (rest : List Turn)
    (h : isQTurn t = false) : qFollowed (t :: rest) = qFollowed rest := by
  cases rest with
  | nil => simp [qFollowed, h]
  | cons u rest2 => simp [qFollowed, h]

theorem pairsOf_cons_skip (main : Str) (subs : List Submodule) (t : Turn)
    (rest : List Turn) (h : isQTurn t = false) :
    pairsOf main subs (t :: rest) = pairsOf main subs rest := by
  cases rest with
  | nil => rfl
  | cons u rest2 => simp [pairsOf, h]

/-- A patient turn is never a question turn. -/
theorem isQTurn_patient (u : Turn) (h : u.who = str "patient") :
    isQTurn u = false := by
  unfold isQTurn
  rw [h]
  have hne : (str "patient" == str "robot") = false := by decide
  rw [hne, Bool.false_and]

theorem qaStep_robot_question (main : Str) (subs : List Submodule)
    (st : List QAPair × Option Str × Option Str) (t : Turn)
    (h : t.who = str "robot")
    (hq : looks_like_question (pyStrip (orElseStr t.text [])) = true) :
    qaStep main subs st t
      = (st.1, some (pyStrip (orElseStr t.text [])),
         some (orElseStr
           (best_submodule_for (pyStrip (orElseStr t.text [])) subs) main)) := by
  unfold qaStep
  rw [h, if_pos rfl, if_pos hq]

theorem qaStep_patient_emit (main : Str) (subs : List Submodule)
    (acc : List QAPair) (q m : Str) (hqne : q ≠ []) (t : Turn)
    (h : t.who = str "patient") :
    qaStep main subs (acc, some q, some m) t
      = (acc ++ [⟨orElseStr (some m) main, q, choose_answer_text t⟩],
         none, none) := by
  unfold qaStep
  rw [h, if_neg (by decide : ¬(str "patient" = str "robot")), if_pos rfl]
  dsimp only
  rw [if_pos (truthy_some q hqne)]
  rfl

theorem qaStep_skip (main : Str) (subs : List Submodule)
    (st : List QAPair × Option Str × Option Str) (t : Turn)
    (hq : isQTurn t = false) (hpend : st.2.1 = none) :
    qaStep main subs st t = st := by
  unfold qaStep
  by_cases hr : t.who = str "robot"
  · rw [if_pos hr]
    have hlooks : looks_like_question (pyStrip (orElseStr t.text [])) = false := by
      unfold isQTurn at hq
      rw [hr] at hq
      simpa using hq
    rw [if_neg (by simp [hlooks])]
  · rw [if_neg hr]
    by_cases hp : t.who = str "patient"
    · rw [if_pos hp]
      have hf : truthy st.2.1 = false := by rw [hpend]; rfl
      rw [if_neg (by simp [hf])]
    · rw [if_neg hp]

theorem qaFold_of_qFollowed (main : Str) (subs : List Submodule) :
    ∀ (n : Nat) (turns : List Turn), turns.length ≤ n →
      ∀ acc : List QAPair, qFollowed turns = true →
        List.foldl (qaStep main subs) (acc, none, none) turns
          = (acc ++ pairsOf main subs turns, none, none) := by
  intro n
  induction n with
  | zero =>
    intro turns hlen acc _
    have h0 : turns = [] := List.length_eq_zero.mp (Nat.le_zero.mp hlen)
    subst h0
    simp [pairsOf]
  | succ n ih =>
    intro turns hlen acc hwf
    cases turns with
    | nil => simp [pairsOf]
    | cons t rest =>
      cases hq : isQTurn t with
      | true =>
        cases rest with
        | nil =>
          rw [qFollowed, hq] at hwf
          cases hwf
        | cons u rest2 =>
          rw [qFollowed, if_pos hq] at hwf
          rw [Bool.and_eq_true] at hwf
          obtain ⟨hu, hwf2⟩ := hwf
          have hu' : u.who = str "patient" := eq_of_beq hu
          have hrobot : t.who = str "robot" := by
            unfold isQTurn at hq
            rw [Bool.and_eq_true] at hq
            exact eq_of_beq hq.1
          have hlooks : looks_like_question (pyStrip (orElseStr t.text [])) = true := by
            unfold isQTurn at hq
            rw [Bool.and_eq_true] at hq
            exact hq.2
          have hwf3 : qFollowed rest2 = true := by
            rwa [qFollowed_cons_skip u rest2 (isQTurn_patient u hu')] at hwf2
          simp only [List.foldl]
          rw [qaStep_robot_question main subs _ t hrobot hlooks]
          rw [qaStep_patient_emit main subs acc _ _
            (looks_ne_nil _ hlooks) u hu']
          have hlen2 : rest2.length ≤ n := by
            simp only [List.length_cons] at hlen
            omega
          rw [ih rest2 hlen2 _ hwf3]
          rw [pairsOf, if_pos hq]
          rw [orElseStr_collapse]
          simp
      | false =>
        have hwf2 : qFollowed rest = true := by
          rwa [qFollowed_cons_skip t rest hq] at hwf
        have hlen2 : rest.length ≤ n := by
          simp only [List.length_cons] at hlen
          omega
        simp only [List.foldl]
        rw [qaStep_skip main subs _ t hq rfl]
        rw [ih rest hlen2 acc hwf2]
        rw [pairsOf_cons_skip main subs t rest hq]

theorem pairsOf_map_q (main : Str) (subs : List Submodule) :
    ∀ (n : Nat) (turns : List Turn), turns.length ≤ n →
      qFollowed turns = true →
      (pairsOf main subs turns).map (fun qa => qa.q)
        = (turns.filter isQTurn).map (fun t => pyStrip (orElseStr t.text [])) := by
  intro n
  induction n with
  | zero =>
    intro turns hlen _
    have h0 : turns = [] := List.length_eq_zero.mp (Nat.le_zero.mp hlen)
    subst h0
    rfl
  | succ n ih =>
    intro turns hlen hwf
    cases turns with
    | nil => rfl
    | cons t rest =>
      cases hq : isQTurn t with
      | true =>
        cases rest with
        | nil =>
          rw [qFollowed, hq] at hwf
          cases hwf
        | cons u rest2 =>
          rw [qFollowed, if_pos hq] at hwf
          rw [Bool.and_eq_true] at hwf
          obtain ⟨hu, hwf2⟩ := hwf
          have hu' : u.who = str "patient" := eq_of_beq hu
          have hqu : isQTurn u = false := isQTurn_patient u hu'
          have hwf3 : qFollowed rest2 = true := by
            rwa [qFollowed_cons_skip u rest2 hqu] at hwf2
          have hlen2 : rest2.length ≤ n := by
            simp only [List.length_cons] at hlen
            omega
          rw [pairsOf, if_pos hq]
          rw [List.filter_cons_of_pos hq, List.filter_cons_of_neg (by simp [hqu])]
          simp only [List.map_cons]
          rw [ih rest2 hlen2 hwf3]
      | false =>
        have hwf2 : qFollowed rest = true := by
          rwa [qFollowed_cons_skip t rest hq] at hwf
        have hlen2 : rest.length ≤ n := by
          simp only [List.length_cons] at hlen
          omega
        rw [pairsOf_cons_skip main subs t rest hq]
        rw [List.filter_cons_of_neg (by simp [hq])]
        exact ih rest hlen2 hwf2

/-- C7: when every robot turn classified as a question is immediately
followed by a patient turn, the reconstructor emits exactly one `QAPair` per
question turn, in the same relative order (their questions are exactly the
stripped question-turn texts, in order). -/
theorem one_pair_per_question (data : ChatlogData)
    (h : qFollowed data.turns = true) :
    (chatlog_turns_to_qa_list data).length
        = (data.turns.filter isQTurn).length ∧
    (chatlog_turns_to_qa_list data).map (fun qa => qa.q)
        = (data.turns.filter isQTurn).map (fun t => pyStrip (orElseStr t.text [])) := by
  have hfold := qaFold_of_qFollowed data.main_module_name data.submodules
    data.turns.length data.turns (Nat.le_refl _) [] h
  have hmap := pairsOf_map_q data.main_module_name data.submodules
    data.turns.length data.turns (Nat.le_refl _) h
  unfold chatlog_turns_to_qa_list
  rw [hfold]
  simp only [List.nil_append]
  have hfix : ∀ l : List QAPair,
      (l.map (fun qa => if qa.module = [] then { qa with module := str "ทั่วไป" }
        else qa)).map (fun qa => qa.q) = l.map (fun qa => qa.q) := by
    intro l
    rw [List.map_map]
    apply List.map_congr_left
    intro qa _
    simp only [Function.comp_apply]
    split <;> rfl
  constructor
  · rw [List.length_map]
    have := congrArg List.length hmap
    simpa using this
  · rw [hfix, hmap]

/-- C7 witness: a record with two questions, each answered immediately, plus
a greeting turn, yields exactly its two questions in order. -/
theorem one_pair_per_question_witness :
    (chatlog_turns_to_qa_list
        { main_module_name := str "หลัก", submodules := [],
          turns := [⟨str "robot", some (str "สวัสดีครับ"), none⟩,
                    ⟨str "robot", some (str "ท่านสะดวกไหม"), none⟩,
                    ⟨str "patient", some (str "สะดวก"), none⟩,
                    ⟨str "robot", some (str "ท่านพอใจหรือไม่"), none⟩,
                    ⟨str "patient", some (str "พอใจ"), none⟩] }).map
      (fun qa => qa.q)
      = [str "ท่านสะดวกไหม", str "ท่านพอใจหรือไม่"] := by
  have h := one_pair_per_question
    { main_module_name := str "หลัก", submodules := [],
      turns := [⟨str "robot", some (str "สวัสดีครับ"), none⟩,
                ⟨str "robot", some (str "ท่านสะดวกไหม"), none⟩,
                ⟨str "patient", some (str "สะดวก"), none⟩,
                ⟨str "robot", some (str "ท่านพอใจหรือไม่"), none⟩,
                ⟨str "patient", some (str "พอใจ"), none⟩] }
    (by decide)
  rw [h.2]
  decide

/-! ### C3 -/

theorem head?_append_left (x y : Str) (h : x ≠ []) :
    (x ++ y).head? = x.head? := by
  cases x with
  | nil => exact absurd rfl h
  | cons a as => rfl

theorem append_ne_nil_left (x y : Str) (h : x ≠ []) : x ++ y ≠ [] := by
  cases x with
  | nil => exact absurd rfl h
  | cons a as => simp

theorem promptSection_head (qa : QAPair) (h : qa.module ≠ []) :
    (promptSection qa).head? = qa.module.head? := by
  unfold promptSection
  rw [head?_append_left _ _
      (append_ne_nil_left _ _
        (append_ne_nil_left _ _ (append_ne_nil_left _ _ h))),
    head?_append_left _ _ (append_ne_nil_left _ _ (append_ne_nil_left _ _ h)),
    head?_append_left _ _ (append_ne_nil_left _ _ h),
    head?_append_left _ _ h]

theorem promptSection_getLast (qa : QAPair) (h : qa.a ≠ []) :
    (promptSection qa).getLast? = qa.a.getLast? := by
  unfold promptSection
  rw [List.getLast?_append_of_ne_nil _ h]

/-- C3 counterexample: for two plain pairs the prompt is the two sections
joined by a single newline — the text contains no blank line at all, though
the claim requires consecutive sections to be separated by one. -/
theorem prompt_sections_not_blank_line_separated :
    build_prompt_text
        [⟨str "โมดูลหนึ่ง", str "คำถามหนึ่ง", str "คำตอบหนึ่ง"⟩,
         ⟨str "โมดูลสอง", str "คำถามสอง", str "คำตอบสอง"⟩]
      = str "โมดูลหนึ่ง\nQ: คำถามหนึ่ง\nA: คำตอบหนึ่ง\nโมดูลสอง\nQ: คำถามสอง\nA: คำตอบสอง" ∧
    isSubstr (str "\n\n")
      (build_prompt_text
        [⟨str "โมดูลหนึ่ง", str "คำถามหนึ่ง", str "คำตอบหนึ่ง"⟩,
         ⟨str "โมดูลสอง", str "คำถามสอง", str "คำตอบสอง"⟩]) = false :=
  ⟨by decide, by decide⟩

/-- C3, amended: the prompt consists of one section per pair in input order
— module label line, `"Q: <question>"` line, `"A: <answer>"` line — with
consecutive sections separated by a single newline (not a blank line); each
section is whitespace-stripped, which is the identity when the module is
nonempty and neither the module's first character nor the answer's last
character is whitespace (the answer nonempty). -/
theorem build_prompt_single_newline (log : List QAPair)
    (h : ∀ qa ∈ log, qa.module ≠ [] ∧
      qa.module.head?.all (fun c => !pyIsSpace c) = true ∧
      qa.a ≠ [] ∧ qa.a.getLast?.all (fun c => !pyIsSpace c) = true) :
    build_prompt_text log
      = List.intercalate (str "\n") (log.map promptSection) := by
  unfold build_prompt_text
  congr 1
  apply List.map_congr_left
  intro qa hqa
  obtain ⟨hm, hmh, ha, hal⟩ := h qa hqa
  apply pyStrip_eq_self
  · rw [promptSection_head qa hm]
    exact hmh
  · rw [promptSection_getLast qa ha]
    exact hal

/-- C3 witness: the amended shape evaluated on two concrete pairs. -/
theorem build_prompt_single_newline_witness :
    build_prompt_text
        [⟨str "ความโปร่งใส", str "โปร่งใสไหม", str "ใสแจ๋ว"⟩,
         ⟨str "ค่าใช้จ่าย", str "ชัดเจนไหม", str "ชัดแจ๋ว"⟩]
      = List.intercalate (str "\n")
          ([⟨str "ความโปร่งใส", str "โปร่งใสไหม", str "ใสแจ๋ว"⟩,
            ⟨str "ค่าใช้จ่าย", str "ชัดเจนไหม", str "ชัดแจ๋ว"⟩].map promptSection) :=
  build_prompt_single_newline
    [⟨str "ความโปร่งใส", str "โปร่งใสไหม", str "ใสแจ๋ว"⟩,
     ⟨str "ค่าใช้จ่าย", str "ชัดเจนไหม", str "ชัดแจ๋ว"⟩]
    (by decide)

/-! ### C4 -/

theorem parseRowsFrom_length (blocks : List Str) :
    ∀ (log : List QAPair) (i : Nat),
      (parseRowsFrom blocks i log).length = log.length := by
  intro log
  induction log with
  | nil => intro i; rfl
  | cons qa rest ih =>
    intro i
    simp [parseRowsFrom, ih]

theorem parseRowsFrom_get (blocks : List Str) :
    ∀ (log : List QAPair) (i k : Nat),
      (parseRowsFrom blocks i log)[k]?
        = (log[k]?).map (fun qa => rowFor (blocks.getD (i + k) []) qa) := by
  intro log
  induction log with
  | nil => intro i k; simp [parseRowsFrom]
  | cons qa rest ih =>
    intro i k
    cases k with
    | zero => simp [parseRowsFrom]
    | succ k =>
      have harith : i + 1 + k = i + (k + 1) := by omega
      simp only [parseRowsFrom, List.getElem?_cons_succ]
      rw [ih (i + 1) k, harith]

theorem rowFor_empty_block (qa : QAPair) :
    rowFor [] qa = ⟨qa.module, qa.q, qa.a, [], []⟩ := rfl

/-- C4: the summary parser returns exactly one row per `QAPair`, aligning the
`i`-th response block with the `i`-th pair; pairs beyond the last block get
an empty summary and score (blocks beyond the last pair are ignored, since
every row comes from the block at its own index). -/
theorem parse_positional_alignment (result_text : Str) (log : List QAPair) :
    (parse_for_csv result_text log).length = log.length ∧
    (∀ i qa, log[i]? = some qa →
      (parse_for_csv result_text log)[i]?
        = some (rowFor ((blocksOf result_text).getD i []) qa)) ∧
    (∀ i qa, log[i]? = some qa → (blocksOf result_text).length ≤ i →
      (parse_for_csv result_text log)[i]?
        = some ⟨qa.module, qa.q, qa.a, [], []⟩) := by
  refine ⟨parseRowsFrom_length _ _ 0, ?_, ?_⟩
  · intro i qa hqa
    unfold parse_for_csv
    rw [parseRowsFrom_get _ log 0 i, hqa, Nat.zero_add]
    rfl
  · intro i qa hqa hlen
    unfold parse_for_csv
    rw [parseRowsFrom_get _ log 0 i, hqa, Nat.zero_add,
      List.getD_eq_default _ _ hlen]
    rfl

/-- C4 witness: a two-block response against a three-pair log — the rows
align positionally and the third row has empty summary and score. -/
theorem parse_positional_alignment_witness :
    (parse_for_csv (str "หนึ่ง: ดี\nคะแนน = 5\n\nสอง: พอใช้\nคะแนน = 3")
        [⟨str "ม1", str "q1", str "a1"⟩, ⟨str "ม2", str "q2", str "a2"⟩,
         ⟨str "ม3", str "q3", str "a3"⟩]).length = 3 ∧
    (parse_for_csv (str "หนึ่ง: ดี\nคะแนน = 5\n\nสอง: พอใช้\nคะแนน = 3")
        [⟨str "ม1", str "q1", str "a1"⟩, ⟨str "ม2", str "q2", str "a2"⟩,
         ⟨str "ม3", str "q3", str "a3"⟩])[2]?
      = some ⟨str "ม3", str "q3", str "a3", [], []⟩ := by
  have h := parse_positional_alignment
    (str "หนึ่ง: ดี\nคะแนน = 5\n\nสอง: พอใช้\nคะแนน = 3")
    [⟨str "ม1", str "q1", str "a1"⟩, ⟨str "ม2", str "q2", str "a2"⟩,
     ⟨str "ม3", str "q3", str "a3"⟩]
  refine ⟨h.1, h.2.2 2 ⟨str "ม3", str "q3", str "a3"⟩ (by decide) (by decide)⟩

/-! ### C5 -/

/-- C5 counterexample: in this block the first line containing the score
label `"คะแนน"` has no digit run, so per the claim the score should be empty
— but the extractor keeps scanning and takes `"4"` from a later label line. -/
theorem score_not_from_first_label_line :
    linesOf (str "หัวข้อ: ผู้ป่วยพอใจ\nคะแนนเต็มห้า\nคะแนน = 4")
      = [str "หัวข้อ: ผู้ป่วยพอใจ", str "คะแนนเต็มห้า", str "คะแนน = 4"] ∧
    isSubstr (str "คะแนน") (str "หัวข้อ: ผู้ป่วยพอใจ") = false ∧
    isSubstr (str "คะแนน") (str "คะแนนเต็มห้า") = true ∧
    firstDigitRun (str "คะแนนเต็มห้า") = [] ∧
    (rowFor (str "หัวข้อ: ผู้ป่วยพอใจ\nคะแนนเต็มห้า\nคะแนน = 4")
        ⟨str "ทั่วไป", str "คำถาม", str "คำตอบ"⟩).score = str "4" :=
  ⟨by decide, by decide, by decide, by decide, by decide⟩

/-- C5, amended: the extracted score comes from the first line that contains
the localized score label AND a digit run — label lines without digits are
skipped rather than ending the scan — and is empty when no such line exists. -/
theorem score_first_label_line_with_digits (block : Str) (qa : QAPair) :
    (rowFor block qa).score
      = match (linesOf block).find?
            (fun ln => isSubstr (str "คะแนน") ln && !(firstDigitRun ln).isEmpty) with
        | some ln => firstDigitRun ln
        | none => [] := by
  show scanScore (linesOf block) = _
  generalize linesOf block = lines
  induction lines with
  | nil => rfl
  | cons ln rest ih =>
    cases hl : isSubstr (str "คะแนน") ln with
    | true =>
      cases hd : firstDigitRun ln with
      | nil => simp [scanScore, List.find?, hl, hd, ih]
      | cons c cs => simp [scanScore, List.find?, hl, hd]
    | false => simp [scanScore, List.find?, hl, ih]

/-! ### C8 -/

/-- C8: appending two row batches to an initially absent table yields exactly
one header line followed by the two serialized batches in order — the header
is written only on the first append and existing bytes are only extended. -/
theorem append_twice_header_once (b1 b2 : List ResultRow) :
    append_rows_to_csv b2 (append_rows_to_csv b1 none)
      = some (csvLine fieldnames ++ (csvRowsOf b1 ++ csvRowsOf b2)) := by
  simp [append_rows_to_csv, List.append_assoc]

/-! ### C9 -/

/-- C9: a missing input file, or an input with no extractable QA pairs,
aborts the run with an error before any model call (the outcome is the same
for every model oracle) and before any append (the output table state is
returned unchanged). -/
theorem run_aborts_cleanly (input_path : Str) (input : Option InputJson)
    (model model2 : Str → Option Str) (out_csv : Option Str)
    (h : input = none ∨ ∃ d, input = some d ∧ convOf d = []) :
    (run input_path input model out_csv).1 = out_csv ∧
    (∃ e, (run input_path input model out_csv).2 = Except.error e) ∧
    run input_path input model out_csv = run input_path input model2 out_csv := by
  rcases h with rfl | ⟨d, rfl, hconv⟩
  · exact ⟨rfl, ⟨_, rfl⟩, rfl⟩
  · refine ⟨?_, ⟨str "No Q/A pairs found in the input JSON.", ?_⟩, ?_⟩ <;>
      simp [run, hconv]

/-- C9 witness: a JSON list with no usable record aborts identically for two
different model oracles, leaving the absent output table absent. -/
theorem run_aborts_cleanly_witness :
    (run (str "log.json") (some (InputJson.jsonList [GenericVal.nondict]))
        (fun _ => none) none).1 = none ∧
    run (str "log.json") (some (InputJson.jsonList [GenericVal.nondict]))
        (fun _ => none) none
      = run (str "log.json") (some (InputJson.jsonList [GenericVal.nondict]))
        (fun _ => some (str "ผลสรุป")) none := by
  have h := run_aborts_cleanly (str "log.json")
    (some (InputJson.jsonList [GenericVal.nondict]))
    (fun _ => none) (fun _ => some (str "ผลสรุป")) none
    (Or.inr ⟨_, rfl, by decide⟩)
  exact ⟨h.1, h.2.2⟩

end LLMAnalyze
